import Mathlib

/-!
Verification of the restla/crea REST-resource pipeline (src/src/resource.ts,
src/src/app.ts, src/src/auth.ts, and the unnamed responder/auth modules)
against its natural-language specification.

The heart of the library is `Resource.process` (src/src/resource.ts, lines
200-232): a transcription of koa-compose. A chain of resource middlewares is
run by a recursive `dispatch` function; each middleware receives the context
and a `next` thunk that dispatches the rest of the chain; a mutable `index`
variable guards against a middleware invoking `next` more than once.

We embed a middleware as a small program (`MwProg`): it can mutate the
context, branch on it, raise an error, or invoke `next` and then continue
with a follow-up program (which may invoke `next` again, faithfully allowing
the misbehaviour the `index` guard exists to catch). The machine `dispatch`
below mirrors the source line by line, with a ghost `trace` recording which
middleware positions were invoked, and the shared mutable context threaded
as explicit state. Thrown errors propagate as an error component alongside
the (mutated) state, matching JavaScript exceptions travelling up through
awaited promises while `ctx` mutations persist.
-/

namespace Crea

/-- Errors produced while processing a middleware chain: either the guard
error thrown by `dispatch` when `next()` is invoked twice from the same
position (resource.ts line 218), or an error thrown by a middleware body. -/
inductive ProcErr (E : Type) where
  | nextTwice : ProcErr E
  | thrown : E → ProcErr E
deriving DecidableEq

/-- The message of the guard error thrown at resource.ts line 218. -/
def nextTwiceMessage : String := "next() called multiple times in resource middleware"

/-- A resource middleware `(ctx, next) => Promise`, embedded as a program
over a mutable context of type `S` that can throw errors of type `E`:

* `halt f` mutates the context by `f` and returns without invoking `next`
  (short-circuiting the chain);
* `raise e` throws `e`;
* `branch c p q` inspects the current context and continues as `p` or `q`
  (how a middleware body conditions on `ctx`);
* `callNext f k` mutates the context by `f`, invokes `next()`, awaits it,
  and then continues as `k` — so `k` containing another `callNext` models a
  middleware that invokes its `next` callback a second time. -/
inductive MwProg (S E : Type) where
  | halt : (S → S) → MwProg S E
  | raise : E → MwProg S E
  | branch : (S → Bool) → MwProg S E → MwProg S E → MwProg S E
  | callNext : (S → S) → MwProg S E → MwProg S E

/-- How many times a middleware invokes its `next` callback on some control
path (for `branch`, the worst path). -/
def nextCount {S E : Type} : MwProg S E → Nat
  | .halt _ => 0
  | .raise _ => 0
  | .branch _ p q => max (nextCount p) (nextCount q)
  | .callNext _ k => 1 + nextCount k

/-- A middleware whose behaviour does not depend on the context (no
conditional control flow). -/
def branchFree {S E : Type} : MwProg S E → Bool
  | .halt _ => true
  | .raise _ => true
  | .branch _ _ _ => false
  | .callNext _ k => branchFree k

/-- A middleware that never throws on any control path. -/
def noRaise {S E : Type} : MwProg S E → Bool
  | .halt _ => true
  | .raise _ => false
  | .branch _ p q => noRaise p && noRaise q
  | .callNext _ k => noRaise k

/-- A middleware with no code after `await next()`: on every control path
it either completes or throws before invoking `next`, or it invokes `next`
as its final action (`return next()`), so its continuation after `next` is
the identity. Every default step of resource.ts is of this form — each
either ends in `return next()` or returns/throws without calling `next`
(`stepOf_postFree` below proves this for the embedded steps). -/
def postFree {S E : Type} : MwProg S E → Prop
  | .halt _ => True
  | .raise _ => True
  | .branch _ p q => postFree p ∧ postFree q
  | .callNext _ k => k = .halt id

/-- The machine state of one `Resource.process` run: the shared mutable
context, the `index` variable of `dispatch` (initialised to `-1`, resource.ts
line 213), and a ghost trace of the middleware positions invoked so far. -/
structure MachineState (S : Type) where
  ctx : S
  index : Int
  trace : List Nat

/-- The observable outcome of a chain run: final context, invocation trace,
and the error that escaped, if any. The `index` variable is internal
bookkeeping and is not part of the outcome. -/
structure Outcome (S E : Type) where
  ctx : S
  trace : List Nat
  err : Option (ProcErr E)
deriving DecidableEq

/-- Run one middleware body with a given `next` implementation. This is the
body `(mw.bind(this))(ctx, async () => dispatch(i + 1))` of resource.ts line
226: the program's effects mutate the shared state, `callNext` invokes the
supplied `next`, and an error from `next` propagates (skipping the rest of
the middleware body, as a rejected awaited promise does). -/
def execWith {S E : Type} (next : MachineState S → MachineState S × Option (ProcErr E)) :
    MwProg S E → MachineState S → MachineState S × Option (ProcErr E)
  | .halt f, st => ({ st with ctx := f st.ctx }, none)
  | .raise e, st => (st, some (.thrown e))
  | .branch c p q, st => if c st.ctx then execWith next p st else execWith next q st
  | .callNext f k, st =>
    match next { st with ctx := f st.ctx } with
    | (st2, none) => execWith next k st2
    | r => r

/-- `dispatch i` of `Resource.process` (resource.ts lines 214-229):

* `if (i <= index) throw new Error('next() called multiple times in resource
  middleware')` — the guard;
* `index = i`;
* `if (i === mws.length) return parentNext()` — at the top level
  `parentNext` is `async () => undefined`, a no-op;
* otherwise invoke middleware `i` (recording it in the ghost trace) with
  `next = () => dispatch(i + 1)`. -/
def dispatch {S E : Type} (mws : List (MwProg S E)) (i : Nat) (st : MachineState S) :
    MachineState S × Option (ProcErr E) :=
  if (i : Int) ≤ st.index then (st, some .nextTwice)
  else
    let st1 : MachineState S := { st with index := (i : Int) }
    if h : i < mws.length then
      execWith (fun st2 => dispatch mws (i + 1) st2) (mws.get ⟨i, h⟩)
        { st1 with trace := st1.trace ++ [i] }
    else (st1, none)
termination_by mws.length - i
decreasing_by omega

/-- Project a machine result onto its observable outcome. -/
def projOut {S E : Type} (r : MachineState S × Option (ProcErr E)) : Outcome S E :=
  ⟨r.1.ctx, r.1.trace, r.2⟩

/-- `Resource.process` (resource.ts lines 200-232) applied to a whole chain
at the top level (no `parentNext`): `return dispatch(0)` with `index`
initialised to `-1`. -/
def process {S E : Type} (mws : List (MwProg S E)) (s : S) : Outcome S E :=
  projOut (dispatch mws 0 ⟨s, -1, []⟩)

/-- Structural reference interpreter for one middleware, used to reason
about `process`: `nextFn` interprets the remainder of the chain, and the
flag `b` records whether this middleware has already invoked `next` (in
which case a further `callNext` yields the guard error, as proved in
`dispatch_spec` below). -/
def progRun {S E : Type} (nextFn : S → List Nat → Outcome S E) :
    MwProg S E → Bool → S → List Nat → Outcome S E
  | .halt f, _, s, tr => ⟨f s, tr, none⟩
  | .raise e, _, s, tr => ⟨s, tr, some (.thrown e)⟩
  | .branch c p q, b, s, tr =>
    if c s then progRun nextFn p b s tr else progRun nextFn q b s tr
  | .callNext f k, b, s, tr =>
    if b then ⟨f s, tr, some .nextTwice⟩
    else
      match nextFn (f s) tr with
      | ⟨s2, tr2, none⟩ => progRun nextFn k true s2 tr2
      | out => out

/-- Structural reference interpreter for a chain suffix whose first element
sits at absolute position `i`. -/
def chainRun {S E : Type} : Nat → List (MwProg S E) → S → List Nat → Outcome S E
  | _, [], s, tr => ⟨s, tr, none⟩
  | i, p :: rest, s, tr =>
    progRun (fun s2 tr2 => chainRun (i + 1) rest s2 tr2) p false s (tr ++ [i])

/-!
The superseded reduce-based `Resource.process` (unnamed part_010, lines
148-167). There, `next` is `async () => cont = true`: invoking it merely
sets a flag, so the code after `await next()` in a middleware body runs
BEFORE the rest of the chain, and invoking `next` twice is harmless. The
reduce threads `(ctx, result)` through the chain; a middleware body is only
run when the previous middleware set the flag, and a rejection propagates
through the accumulated promise, so the remaining reduce iterations
short-circuit.
-/

/-- One middleware body under the reduce-based processor: effects apply
in program order, `callNext` just sets the continue flag, and a raise
rejects. Returns (new context, flag, error). -/
def reduceExec {S E : Type} : MwProg S E → Bool → S → S × Bool × Option E
  | .halt f, cont, s => (f s, cont, none)
  | .raise e, cont, s => (s, cont, some e)
  | .branch c p q, cont, s =>
    if c s then reduceExec p cont s else reduceExec q cont s
  | .callNext f k, _, s => reduceExec k true (f s)

/-- The reduce fold of part_010 lines 151-166, with absolute position `i`
and a ghost trace of invoked middlewares. When `result` is false the
iteration returns false without invoking the middleware (`if (!result)
return false`). -/
def reduceGo {S E : Type} : Nat → List (MwProg S E) → S → List Nat → Bool → Outcome S E
  | _, [], s, tr, _ => ⟨s, tr, none⟩
  | i, mw :: rest, s, tr, result =>
    if result then
      match reduceExec mw false s with
      | (s2, cont, none) => reduceGo (i + 1) rest s2 (tr ++ [i]) cont
      | (s2, _, some e) => ⟨s2, tr ++ [i], some (.thrown e)⟩
    else reduceGo (i + 1) rest s tr false

/-- The superseded reduce-based `Resource.process`: fold the chain starting
with `Promise.resolve(true)`. -/
def reduceProcess {S E : Type} (mws : List (MwProg S E)) (s : S) : Outcome S E :=
  reduceGo 0 mws s [] true

/-!
The domain model: the per-request context threaded through a resource
action, the persistence collaborator (a Squell query against a model with a
single primary key `id` and one data field `name`, as in the examples), the
error taxonomy with `ApplicationError.coerce` (src/src/app.ts), and the
`Responder` (unnamed part_009).
-/

/-- A field error `{ path, message }` as carried by a modelsafe
ValidationError and forwarded into `ApplicationError.data`. -/
structure FieldError where
  path : String
  message : String
deriving DecidableEq

/-- A persisted model instance: primary key `id` plus one attribute, as in
the example models (President, User). -/
structure Row where
  id : Nat
  name : String
deriving DecidableEq

/-- The persistence collaborator state: the table of rows. -/
abbrev Db := List Row

/-- A request payload (`Partial<T>`): the updatable attribute, when given. -/
structure Payload where
  name : Option String
deriving DecidableEq

/-- A Squell query handle as the resource steps use it: the base query
`db.query(model)` optionally refined by the primary-key filter
`where(pk.eq(ctx.params.id))` (resource.ts line 255 — note the route
parameter may be `undefined`) and by `includeAll` (line 259). -/
structure Query where
  pkFilter : Option (Option Nat)
  includeAll : Bool
deriving DecidableEq

/-- `db.query(model)`: the unfiltered base query. -/
def baseQuery : Query := { pkFilter := none, includeAll := false }

/-- Whether a row satisfies the query's where clause. A filter on an
`undefined` route parameter matches no row. -/
def rowMatches (q : Query) (r : Row) : Bool :=
  match q.pkFilter with
  | none => true
  | some none => false
  | some (some v) => r.id == v

/-- `query.find()`: all matching rows. -/
def dbFind (q : Query) (db : Db) : List Row := db.filter (rowMatches q)

/-- `query.findOne()`: the first matching row, or null. -/
def dbFindOne (q : Query) (db : Db) : Option Row := (db.filter (rowMatches q)).head?

/-- `applyPayload` merges a partial payload onto a persisted row. -/
def applyPayload (p : Payload) (r : Row) : Row :=
  { r with name := p.name.getD r.name }

/-- `query.update(payload)`: merge the payload onto every matching row. -/
def dbUpdate (q : Query) (p : Payload) (db : Db) : Db :=
  db.map (fun r => if rowMatches q r then applyPayload p r else r)

/-- `query.destroy()`: delete every matching row. -/
def dbDestroy (q : Query) (db : Db) : Db :=
  db.filter (fun r => !(rowMatches q r))

/-- `query.create(payload)`: insert a new row under a fresh primary key
(auto-increment) and return it. The query's where clause is ignored by
creation. -/
def dbCreate (p : Payload) (db : Db) : Row × Db :=
  let newId := (db.map Row.id).foldr max 0 + 1
  let r : Row := { id := newId, name := p.name.getD "" }
  (r, db ++ [r])

/-- The partial resource record written by `handleListStart`,
`handleReadStart`, `handleCreateStart`, `handleUpdateStart` and
`handleDeleteStart` (resource.ts lines 325-329, 506-509, 686-689, 866-869,
1084-1087): only `name`, `actionName` and — for LIST only — `multiple` are
present; `handleStart` then spreads this over its defaults. -/
structure ResInit where
  resName : Option String
  actionName : String
  multiple : Option Bool
deriving DecidableEq

/-- The full `ResourceData` record as built by `handleStart` (resource.ts
lines 49-83, 240-264). The field `inst` models `instance?: T | T[]`. -/
inductive InstVal where
  | one : Row → InstVal
  | many : List Row → InstVal
deriving DecidableEq

/-- Resource-specific data of a resource context (resource.ts lines 49-83). -/
structure ResData where
  resName : Option String
  actionName : String
  multiple : Bool
  query : Query
  data : Payload
  inst : Option InstVal
deriving DecidableEq

/-- The response body slot of the router context as the steps write it. -/
inductive Body where
  | unset : Body
  | emptyObj : Body
  | errObj : String → Option (List FieldError) → Body
  | single : Row → Body
  | many : List Row → Body
deriving DecidableEq

/-- The per-request resource context: route parameter, parsed request body,
the two resource slots (the partial record written by the per-action start
step, and the full record written by `handleStart`), the response slot
(status and body), the persistence collaborator state, and a ghost count of
`destroy()` invocations. -/
structure Ctx where
  paramsId : Option Nat
  requestBody : Payload
  resInit : Option ResInit
  resource : Option ResData
  status : Nat
  body : Body
  db : Db
  destroyCalls : Nat
deriving DecidableEq

/-- A fresh context for one dispatched request. Koa's default response
status is 404 until a body is assigned; the steps under verification always
set the status explicitly before it is observed. -/
def mkCtx (pid : Option Nat) (reqBody : Payload) (db : Db) : Ctx :=
  { paramsId := pid, requestBody := reqBody, resInit := none, resource := none,
    status := 404, body := .unset, db := db, destroyCalls := 0 }

/-- The errors that arise in the system, one constructor per error class:
`ApplicationError(status, message, data)` (app.ts lines 15-41),
modelsafe `ValidationError`, the three auth token errors (auth.ts),
`AuthorisationError` (unnamed part_007 lines 64-75), and any other
JavaScript `Error`. Each carries its message. -/
inductive AppErr where
  | application : Nat → String → Option (List FieldError) → AppErr
  | validation : String → List FieldError → AppErr
  | tokenInvalid : String → AppErr
  | tokenExpiry : String → AppErr
  | userNotFound : String → AppErr
  | authorisation : String → AppErr
  | other : String → AppErr
deriving DecidableEq

/-- The message carried by an error. -/
def AppErr.msg : AppErr → String
  | .application _ m _ => m
  | .validation m _ => m
  | .tokenInvalid m => m
  | .tokenExpiry m => m
  | .userNotFound m => m
  | .authorisation m => m
  | .other m => m

/-- The coerced form of an error: an `ApplicationError` with HTTP status,
message and optional data (app.ts lines 15-41). -/
structure ApplicationError where
  status : Nat
  message : String
  data : Option (List FieldError)
deriving DecidableEq

/-- The handler table `ApplicationError.handlers` as populated by the four
`ApplicationError.register` calls at app.ts lines 104-118: ValidationError
to 400 with the field errors as data, TokenInvalidError, TokenExpiryError
and UserNotFoundError to 401. No handler is registered for
`AuthorisationError` (the doc comment at app.ts line 61 promises one, but
no `register` call for it exists anywhere in the sources). -/
def registeredHandler : AppErr → Option ApplicationError
  | .validation m errs => some ⟨400, m, some errs⟩
  | .tokenInvalid m => some ⟨401, m, none⟩
  | .tokenExpiry m => some ⟨401, m, none⟩
  | .userNotFound m => some ⟨401, m, none⟩
  | _ => none

/-- `ApplicationError.coerce` (app.ts lines 63-82): pass an
`ApplicationError` through unchanged; otherwise look up the registered
handler by the error's constructor; with no handler, coerce to a 500 with
the original message. -/
def ApplicationError.coerce : AppErr → ApplicationError
  | .application s m d => ⟨s, m, d⟩
  | e =>
    match registeredHandler e with
    | some ae => ae
    | none => ⟨500, e.msg, none⟩

/-- A chain-processing error as seen by the application-level catch: the
guard error is a plain `Error` with its fixed message, anything else is the
thrown error itself. -/
def procErrToAppErr : ProcErr AppErr → AppErr
  | .nextTwice => .other nextTwiceMessage
  | .thrown e => e

/-- `Responder.error` (unnamed part_009 lines 49-55): set the response
status to the error's status and the body to an object with the error's
`message` and `data`. -/
def respondError (ae : ApplicationError) (c : Ctx) : Ctx :=
  { c with status := ae.status, body := .errObj ae.message ae.data }

/-- The error-handling application middleware installed by the
`Application` constructor (app.ts lines 162-171): run the downstream chain;
on success the context stands as mutated, on a thrown error coerce it and
send it through the responder. -/
def runBoundary (mws : List (MwProg Ctx AppErr)) (c : Ctx) : Ctx :=
  let out := process mws c
  match out.err with
  | none => out.ctx
  | some pe => respondError (ApplicationError.coerce (procErrToAppErr pe)) out.ctx

/-!
Wire shapes. `encodeBody` reflects how Koa JSON-serialises the value left
in `ctx.body`; a key whose value is `undefined` is dropped by
`JSON.stringify`, so an error without `data` serialises to an object with
the `message` key only.
-/

/-- A JSON value. -/
inductive Json where
  | null : Json
  | str : String → Json
  | num : Int → Json
  | bool : Bool → Json
  | arr : List Json → Json
  | obj : List (String × Json) → Json

/-- Whether a JSON object has a field with the given key. -/
def Json.hasKey : Json → String → Bool
  | .obj fields, k => fields.any (fun f => f.1 == k)
  | _, _ => false

/-- A `{ path, message }` field error on the wire. -/
def encodeFieldError (fe : FieldError) : Json :=
  .obj [("path", .str fe.path), ("message", .str fe.message)]

/-- A model instance on the wire. -/
def encodeRow (r : Row) : Json :=
  .obj [("id", .num r.id), ("name", .str r.name)]

/-- The serialised response body. -/
def encodeBody : Body → Json
  | .unset => .null
  | .emptyObj => .obj []
  | .errObj m none => .obj [("message", .str m)]
  | .errObj m (some fs) => .obj [("message", .str m), ("data", .arr (fs.map encodeFieldError))]
  | .single r => encodeRow r
  | .many rs => .arr (rs.map encodeRow)

/-!
The default milestone steps of `Resource` (resource.ts), written as
`MwProg Ctx AppErr` programs. Per-action wrappers such as `handleListStart`
call `this.process(ctx, this.handleStart, next)` on a singleton sub-chain;
running a singleton sub-chain whose middleware invokes `next` at most once
is the same as running the middleware with the outer `next` directly, so
the wrappers are flattened here into one program (the per-action partial
resource assignment composed with the shared `handleStart` effect).
-/

/-- Options of a resource as they matter to the steps: the resource name,
the `associations` flag, and the optional auth collaborator (whether it has
an ACL and whether that ACL allows the requested action). -/
structure AuthModel where
  hasAcl : Bool
  allowed : Bool
deriving DecidableEq

/-- Resource options (resource.ts lines 95-110), restricted to the fields
the default steps read. -/
structure ResourceOptions where
  resName : Option String
  associations : Bool
  auth : Option AuthModel
deriving DecidableEq

/-- A before/after extension-point step: it only calls `next()`. -/
def passStep {S E : Type} : MwProg S E := .callNext id (.halt id)

/-- The partial resource assignment of a per-action start handler. -/
def setResInit (opts : ResourceOptions) (actionName : String) (multiple : Option Bool)
    (c : Ctx) : Ctx :=
  { c with resInit := some ⟨opts.resName, actionName, multiple⟩ }

/-- The effect of `handleStart` (resource.ts lines 240-263): build the
resource record with defaults `multiple: false`, the base query, and the
cloned request body as data, spread the partial record from the per-action
start handler over it, then — unless `multiple` — filter the query by the
primary key equal to the route parameter, and add `includeAll` when the
`associations` option is set. -/
def handleStartEffect (opts : ResourceOptions) (c : Ctx) : Ctx :=
  match c.resInit with
  | none => c
  | some init =>
    let multiple := init.multiple.getD false
    let q1 := if multiple then baseQuery else { baseQuery with pkFilter := some c.paramsId }
    let q2 := if opts.associations then { q1 with includeAll := true } else q1
    let rd : ResData :=
      { resName := init.resName, actionName := init.actionName, multiple := multiple,
        query := q2, data := c.requestBody, inst := none }
    { c with resource := some rd }

/-- Mutate the resource record, when present. -/
def onResource (f : ResData → ResData) (c : Ctx) : Ctx :=
  match c.resource with
  | none => c
  | some rd => { c with resource := some (f rd) }

/-- `handleListFetch` (resource.ts lines 390-394): run the query, store the
plural result. -/
def listFetchEffect (c : Ctx) : Ctx :=
  onResource (fun rd => { rd with inst := some (.many (dbFind rd.query c.db)) }) c

/-- The shared singular fetch effect of `handleReadFetch`,
`handleUpdateFetch` and `handleDeleteFetch`: `instance = await
query.findOne()`. -/
def oneFetchEffect (c : Ctx) : Ctx :=
  onResource (fun rd => { rd with inst := (dbFindOne rd.query c.db).map .one }) c

/-- `handleCreateWrite` (resource.ts lines 750-754): persist a new instance
from `ctx.resource.data` and store it. -/
def createWriteEffect (c : Ctx) : Ctx :=
  match c.resource with
  | none => c
  | some rd =>
    let rdb := dbCreate rd.data c.db
    { c with db := rdb.2, resource := some ({ rd with inst := some (.one rdb.1) }) }

/-- `handleUpdateWrite` (resource.ts lines 962-969): apply the partial
payload to the persisted rows, then reload by re-running the query so the
stored instance reflects the canonical post-write state. -/
def updateWriteEffect (c : Ctx) : Ctx :=
  match c.resource with
  | none => c
  | some rd =>
    let db2 := dbUpdate rd.query rd.data c.db
    { c with db := db2, resource := some ({ rd with inst := (dbFindOne rd.query db2).map .one }) }

/-- The destroy effect of `handleDeleteWrite` (resource.ts lines 1187-1190),
run only when an instance was fetched: destroy, count the call, and clear
the instance reference from the context. -/
def deleteWriteEffect (c : Ctx) : Ctx :=
  match c.resource with
  | none => c
  | some rd =>
    let rd2 : ResData := { rd with inst := none }
    { c with db := dbDestroy rd.query c.db, destroyCalls := c.destroyCalls + 1, resource := some rd2 }

/-- The `if (!ctx.resource.instance)` guard of `handleSend` and
`handleDeleteWrite`. An empty fetched array is a truthy value, so a LIST of
zero rows does not trip this guard. -/
def instMissing (c : Ctx) : Bool :=
  match c.resource with
  | none => true
  | some rd => rd.inst.isNone

/-- The respond effect of `handleSend` (resource.ts lines 289-293): send
the instances through `responder.multiple` or the instance through
`responder.single`, per the `multiple` flag; both set status 200. -/
def sendEffect (c : Ctx) : Ctx :=
  match c.resource with
  | none => c
  | some rd =>
    match rd.inst with
    | none => c
    | some iv =>
      if rd.multiple then
        let b : Body := .many (match iv with | .many rs => rs | .one r => [r])
        { c with status := 200, body := b }
      else
        let b : Body := .single (match iv with | .one r => r | .many rs => rs.headD ⟨0, ""⟩)
        { c with status := 200, body := b }

/-- `handleSend` (resource.ts lines 284-296): throw a 404
`ApplicationError` when no instance was fetched, otherwise respond and call
`next()`. -/
def handleSendProg : MwProg Ctx AppErr :=
  .branch instMissing (.raise (.application 404 "Not Found" none))
    (.callNext sendEffect (.halt id))

/-- `handleDeleteWrite` (resource.ts lines 1180-1193): throw a 404 when no
instance was fetched; otherwise destroy, clear the instance, and call
`next()`. -/
def handleDeleteWriteProg : MwProg Ctx AppErr :=
  .branch instMissing (.raise (.application 404 "Not Found" none))
    (.callNext deleteWriteEffect (.halt id))

/-- `handleDeleteSend` (resource.ts lines 1221-1224): set an empty body and
return WITHOUT calling `next` — the only default step that short-circuits
on success. -/
def handleDeleteSendProg : MwProg Ctx AppErr :=
  .halt (fun c => { c with body := .emptyObj })

/-- `handleAuth` (resource.ts lines 272-276) composed with the
`auth.authorised` middleware (unnamed part_007 lines 379-390): with no auth
collaborator just call `next()`; with one, check the ACL when present and
throw an `AuthorisationError` (constructed without a message, as at
part_007 line 385) when the action is not allowed. -/
def handleAuthProg (opts : ResourceOptions) : MwProg Ctx AppErr :=
  match opts.auth with
  | none => passStep
  | some a =>
    if a.hasAcl then
      .branch (fun _ => a.allowed) (.callNext id (.halt id)) (.raise (.authorisation ""))
    else passStep

/-- The default step registered under each name of the five action chains
(the names are the method names of resource.ts; unknown names behave as
pure extension points). -/
def stepOf (opts : ResourceOptions) (stepName : String) : MwProg Ctx AppErr :=
  match stepName with
  | "handleListStart" =>
    .callNext (fun c => handleStartEffect opts (setResInit opts "list" (some true) c)) (.halt id)
  | "handleReadStart" =>
    .callNext (fun c => handleStartEffect opts (setResInit opts "read" none c)) (.halt id)
  | "handleCreateStart" =>
    .callNext (fun c => handleStartEffect opts (setResInit opts "create" none c)) (.halt id)
  | "handleUpdateStart" =>
    .callNext (fun c => handleStartEffect opts (setResInit opts "update" none c)) (.halt id)
  | "handleDeleteStart" =>
    .callNext (fun c => handleStartEffect opts (setResInit opts "delete" none c)) (.halt id)
  | "handleListAuth" => handleAuthProg opts
  | "handleReadAuth" => handleAuthProg opts
  | "handleCreateAuth" => handleAuthProg opts
  | "handleUpdateAuth" => handleAuthProg opts
  | "handleDeleteAuth" => handleAuthProg opts
  | "handleListFetch" => .callNext listFetchEffect (.halt id)
  | "handleReadFetch" => .callNext oneFetchEffect (.halt id)
  | "handleUpdateFetch" => .callNext oneFetchEffect (.halt id)
  | "handleDeleteFetch" => .callNext oneFetchEffect (.halt id)
  | "handleCreateWrite" => .callNext createWriteEffect (.halt id)
  | "handleUpdateWrite" => .callNext updateWriteEffect (.halt id)
  | "handleDeleteWrite" => handleDeleteWriteProg
  | "handleListSend" => handleSendProg
  | "handleReadSend" => handleSendProg
  | "handleCreateSend" => handleSendProg
  | "handleUpdateSend" => handleSendProg
  | "handleDeleteSend" => handleDeleteSendProg
  | _ => passStep

/-- The LIST action chain (resource.ts lines 472-487). -/
def listChain : List String :=
  ["beforeListStart", "handleListStart", "afterListStart",
   "beforeListFetch", "handleListFetch", "afterListFetch",
   "beforeListSend", "handleListSend", "afterListSend",
   "beforeListFinish", "handleListFinish", "afterListFinish"]

/-- The READ action chain (resource.ts lines 652-667). -/
def readChain : List String :=
  ["beforeReadStart", "handleReadStart", "afterReadStart",
   "beforeReadFetch", "handleReadFetch", "afterReadFetch",
   "beforeReadSend", "handleReadSend", "afterReadSend",
   "beforeReadFinish", "handleReadFinish", "afterReadFinish"]

/-- The CREATE action chain (resource.ts lines 832-847). -/
def createChain : List String :=
  ["beforeCreateStart", "handleCreateStart", "afterCreateStart",
   "beforeCreateWrite", "handleCreateWrite", "afterCreateWrite",
   "beforeCreateSend", "handleCreateSend", "afterCreateSend",
   "beforeCreateFinish", "handleCreateFinish", "afterCreateFinish"]

/-- The UPDATE action chain (resource.ts lines 1047-1065). -/
def updateChain : List String :=
  ["beforeUpdateStart", "handleUpdateStart", "afterUpdateStart",
   "beforeUpdateFetch", "handleUpdateFetch", "afterUpdateFetch",
   "beforeUpdateWrite", "handleUpdateWrite", "afterUpdateWrite",
   "beforeUpdateSend", "handleUpdateSend", "afterUpdateSend",
   "beforeUpdateFinish", "handleUpdateFinish", "afterUpdateFinish"]

/-- The DELETE action chain (resource.ts lines 1272-1293) — the only chain
that includes the auth milestone steps. -/
def deleteChain : List String :=
  ["beforeDeleteStart", "handleDeleteStart", "afterDeleteStart",
   "beforeDeleteAuth", "handleDeleteAuth", "afterDeleteAuth",
   "beforeDeleteFetch", "handleDeleteFetch", "afterDeleteFetch",
   "beforeDeleteWrite", "handleDeleteWrite", "afterDeleteWrite",
   "beforeDeleteSend", "handleDeleteSend", "afterDeleteSend",
   "beforeDeleteFinish", "handleDeleteFinish", "afterDeleteFinish"]

/-- Dispatch one resource action: run the named chain through
`Resource.process` inside the application error boundary. -/
def runAction (opts : ResourceOptions) (chain : List String) (c : Ctx) : Ctx :=
  runBoundary (chain.map (stepOf opts)) c

/-- Options of a plain resource with no auth collaborator. -/
def plainOpts : ResourceOptions := { resName := none, associations := false, auth := none }

/-- A concrete middleware that invokes its `next` callback twice. -/
def twiceChain : List (MwProg Ctx AppErr) :=
  [.callNext id (.callNext id (.halt id))]

/-- A concrete three-middleware chain, each middleware invoking `next` at
most once, on which the two chain processors schedule differently: the
first middleware flips the status after `next()` returns, and the second
short-circuits exactly when the status has already been flipped. -/
def mixedChain : List (MwProg Ctx AppErr) :=
  [.callNext id (.halt (fun c => { c with status := 999 })),
   .branch (fun c => c.status == 999) (.halt id) (.callNext id (.halt id)),
   .halt id]

/-- A concrete chain of middlewares with no code after `next()`: two
pass-through steps, then a step that completes without invoking `next`,
then a never-reached step. -/
def simpleChain : List (MwProg Ctx AppErr) :=
  [.callNext id (.halt id), .callNext id (.halt id), .halt id, .callNext id (.halt id)]

/-- An empty request payload. -/
def noBody : Payload := { name := none }

/-!
The priority hook registry. The hook/priority variant of `Resource` (the
one exporting `ResourceStatus` and `Resource.before/on/after` with a
priority, called by examples/simple/resources/president.ts) is not among
the sources; only its caller is. The definitions in this section are
therefore modelled from the spec (sections 4.1 and 4.2) rather than
transcribed from code.
-/

namespace HookSpec

/-- Modelled from the spec: a resource action name. -/
inductive Action where
  | LIST | READ | CREATE | UPDATE | DELETE
deriving DecidableEq

/-- Modelled from the spec: a milestone name (section 2 lists start,
authenticate, fetch, write, send, finish). -/
inductive Milestone where
  | START | AUTHENTICATE | FETCH | WRITE | SEND | FINISH
deriving DecidableEq

/-- Modelled from the spec: the chain kind a hook is registered under. -/
inductive ChainKind where
  | beforeKind | onKind | afterKind
deriving DecidableEq

/-- Modelled from the spec (section 3): a hook is a priority plus a step;
the step is identified here by a number so that distinct hooks can be told
apart. -/
structure Hook where
  priority : Int
  hid : Nat
deriving DecidableEq

/-- Modelled from the spec (section 4.2): ordered insert keeping the chain
sorted ascending by priority; a stable insert places the new hook after
every hook of equal priority. -/
def insertHook (h : Hook) : List Hook → List Hook
  | [] => [h]
  | x :: xs => if x.priority ≤ h.priority then x :: insertHook h xs else h :: x :: xs

/-- Modelled from the spec: the registry maps an (action, milestone,
chain-kind) key to its priority-ordered hook list. -/
def Registry := Action × Milestone × ChainKind → List Hook

/-- Modelled from the spec (section 4.2): `withHook` returns a new registry
equal to the input except that the target chain has the hook inserted in
priority order; the input registry is not mutated. -/
def withHook (reg : Registry) (key : Action × Milestone × ChainKind) (h : Hook) : Registry :=
  fun k => if k = key then insertHook h (reg k) else reg k

/-- Modelled from the spec (section 4.2): a user hook registered without an
explicit priority defaults to priority 1. -/
def defaultHookPriority : Int := 1

/-- Modelled from the spec (sections 4.1 and 4.2): the built-in default
step sits at priority 0. -/
def defaultStepPriority : Int := 0

/-- Modelled from the spec (section 4.1, step 1): the executed on-chain is
the registered on-hooks with the default step appended at the last
position. -/
def onChainExec (onHooks : List Hook) (defaultStep : Hook) : List Hook :=
  onHooks ++ [defaultStep]

/-- A chain sorted ascending by priority. -/
def SortedByPriority (l : List Hook) : Prop :=
  l.Pairwise (fun a b => a.priority ≤ b.priority)

/-- The empty registry of a freshly constructed resource. -/
def emptyReg : Registry := fun _ => []

/-- A sample chain key. -/
def sampleKey : Action × Milestone × ChainKind := (Action.CREATE, Milestone.WRITE, ChainKind.onKind)

end HookSpec

/-!
Correctness of the reference interpreter: `process` (the koa-compose
machine with its `index` guard) computes exactly what `chainRun` (the
structural interpreter with a per-activation flag) computes. The per-
activation flag is faithful because, once a middleware's first `next()`
invocation has returned, the machine's `index` is at least one past the
middleware's own position, so every later `next()` invocation from that
position trips the `i <= index` guard.
-/

theorem execWith_spec {S E : Type}
    (next : MachineState S → MachineState S × Option (ProcErr E))
    (nextFn : S → List Nat → Outcome S E) (i : Int)
    (H1 : ∀ st : MachineState S, st.index = i →
      projOut (next st) = nextFn st.ctx st.trace ∧ i + 1 ≤ (next st).1.index)
    (H2 : ∀ st : MachineState S, i + 1 ≤ st.index → next st = (st, some .nextTwice)) :
    ∀ (p : MwProg S E) (st : MachineState S) (b : Bool),
      (if b then i + 1 ≤ st.index else st.index = i) →
      projOut (execWith next p st) = progRun nextFn p b st.ctx st.trace ∧
      st.index ≤ (execWith next p st).1.index := by
  intro p
  induction p with
  | halt f => intro st b hb; simp [execWith, progRun, projOut]
  | raise e => intro st b hb; simp [execWith, progRun, projOut]
  | branch c p q ihp ihq =>
    intro st b hb
    by_cases hc : c st.ctx
    · simpa [execWith, progRun, hc] using ihp st b hb
    · simpa [execWith, progRun, hc] using ihq st b hb
  | callNext f k ih =>
    intro st b hb
    cases b with
    | true =>
      have hb' : i + 1 ≤ st.index := by simpa using hb
      have h2 := H2 { st with ctx := f st.ctx } (by exact hb')
      simp [execWith, progRun, h2, projOut]
    | false =>
      have hb' : st.index = i := by simpa using hb
      have h1 := H1 { st with ctx := f st.ctx } (by exact hb')
      obtain ⟨heq, hidx⟩ := h1
      rcases hr : next { st with ctx := f st.ctx } with ⟨st2, e⟩
      rw [hr] at heq hidx
      simp only at hidx
      cases e with
      | none =>
        have hout : nextFn (f st.ctx) st.trace = ⟨st2.ctx, st2.trace, none⟩ := by
          rw [← heq]; rfl
        have ihk := ih st2 true (by simp; omega)
        constructor
        · simp only [execWith, progRun, if_neg (by simp : ¬False), hr]
          rw [hout]
          exact ihk.1
        · simp only [execWith, hr]
          have := ihk.2
          omega
      | some pe =>
        have hout : nextFn (f st.ctx) st.trace = ⟨st2.ctx, st2.trace, some pe⟩ := by
          rw [← heq]; rfl
        constructor
        · simp only [execWith, progRun, hr]
          rw [hout]
          rfl
        · simp only [execWith, hr]
          omega

theorem dispatch_spec {S E : Type} (mws : List (MwProg S E)) :
    ∀ (n i : Nat) (st : MachineState S), mws.length - i ≤ n → st.index < (i : Int) →
      projOut (dispatch mws i st) = chainRun i (mws.drop i) st.ctx st.trace ∧
      (i : Int) ≤ (dispatch mws i st).1.index := by
  intro n
  induction n with
  | zero =>
    intro i st hn hidx
    have hlen : mws.length ≤ i := by omega
    rw [dispatch]
    rw [if_neg (by omega), dif_neg (by omega)]
    rw [List.drop_eq_nil_of_le hlen]
    exact ⟨rfl, by simp⟩
  | succ n ih =>
    intro i st hn hidx
    rw [dispatch]
    rw [if_neg (by omega)]
    by_cases h : i < mws.length
    · rw [dif_pos h]
      have hdrop : mws.drop i = mws.get ⟨i, h⟩ :: mws.drop (i + 1) := by
        set_option linter.unnecessarySimpa false in
        simpa using List.drop_eq_getElem_cons h
      rw [hdrop, chainRun]
      have hmain := execWith_spec (fun st2 => dispatch mws (i + 1) st2)
          (fun s2 tr2 => chainRun (i + 1) (mws.drop (i + 1)) s2 tr2) (i : Int)
          (fun st0 hst0 => by
            have hrec := ih (i + 1) st0 (by omega) (by rw [hst0]; push_cast; omega)
            refine ⟨hrec.1, ?_⟩
            have := hrec.2
            push_cast at this ⊢
            omega)
          (fun st0 hst0 => by
            show dispatch mws (i + 1) st0 = (st0, some ProcErr.nextTwice)
            rw [dispatch]
            rw [if_pos (by push_cast; omega)])
          (mws.get ⟨i, h⟩)
          { st with index := (i : Int), trace := st.trace ++ [i] } false (by simp)
      exact ⟨hmain.1, hmain.2⟩
    · rw [dif_neg h]
      rw [List.drop_eq_nil_of_le (by omega)]
      exact ⟨rfl, by simp⟩

/-- `Resource.process` computes the structural interpretation of the chain. -/
theorem process_eq_chainRun {S E : Type} (mws : List (MwProg S E)) (s : S) :
    process mws s = chainRun 0 mws s [] := by
  have h := (dispatch_spec mws mws.length 0 ⟨s, -1, []⟩ (by omega) (by norm_num)).1
  simpa [process] using h

/-- A middleware that has already invoked `next` can no longer reach the
rest of the chain: its run is the same for any interpretation of the rest,
and it invokes no further middleware. -/
theorem progRun_true_eq {S E : Type} (n1 n2 : S → List Nat → Outcome S E) :
    ∀ (p : MwProg S E) (s : S) (tr : List Nat),
      progRun n1 p true s tr = progRun n2 p true s tr ∧
      (progRun n1 p true s tr).trace = tr := by
  intro p
  induction p with
  | halt f => intro s tr; simp [progRun]
  | raise e => intro s tr; simp [progRun]
  | branch c p q ihp ihq =>
    intro s tr
    by_cases hc : c s
    · simpa [progRun, hc] using ihp s tr
    · simpa [progRun, hc] using ihq s tr
  | callNext f k ih => intro s tr; simp [progRun]

/-- Every chain run invokes a prefix of consecutive positions, and the run
of the invoked prefix alone is the whole run: middlewares past the last
invoked position contribute nothing. -/
theorem chainRun_spec {S E : Type} :
    ∀ (l : List (MwProg S E)) (i : Nat) (s : S) (tr : List Nat),
      ∃ k, k ≤ l.length ∧ (chainRun i l s tr).trace = tr ++ List.range' i k ∧
        chainRun i (l.take k) s tr = chainRun i l s tr := by
  intro l
  induction l with
  | nil => intro i s tr; exact ⟨0, by simp, by simp [chainRun], by simp⟩
  | cons p rest ih =>
    intro i s tr
    -- the head middleware, with the rest of the chain as its continuation
    have key : ∀ (q : MwProg S E) (b : Bool) (s0 : S) (tr0 : List Nat),
        ∃ k, k ≤ rest.length ∧
          (progRun (fun s2 tr2 => chainRun (i + 1) rest s2 tr2) q b s0 tr0).trace =
            tr0 ++ List.range' (i + 1) k ∧
          progRun (fun s2 tr2 => chainRun (i + 1) (rest.take k) s2 tr2) q b s0 tr0 =
            progRun (fun s2 tr2 => chainRun (i + 1) rest s2 tr2) q b s0 tr0 := by
      intro q
      induction q with
      | halt f => intro b s0 tr0; exact ⟨0, by simp, by simp [progRun], by simp [progRun]⟩
      | raise e => intro b s0 tr0; exact ⟨0, by simp, by simp [progRun], by simp [progRun]⟩
      | branch c q1 q2 ihq1 ihq2 =>
        intro b s0 tr0
        by_cases hc : c s0
        · obtain ⟨k, hk, htr, htake⟩ := ihq1 b s0 tr0
          exact ⟨k, hk, by simpa [progRun, hc] using htr, by simpa [progRun, hc] using htake⟩
        · obtain ⟨k, hk, htr, htake⟩ := ihq2 b s0 tr0
          exact ⟨k, hk, by simpa [progRun, hc] using htr, by simpa [progRun, hc] using htake⟩
      | callNext f kq ihk =>
        intro b s0 tr0
        cases b with
        | true => exact ⟨0, by simp, by simp [progRun], by simp [progRun]⟩
        | false =>
          obtain ⟨k, hk, htr, htake⟩ := ih (i + 1) (f s0) tr0
          refine ⟨k, hk, ?_, ?_⟩
          · rw [progRun]
            rw [if_neg (by simp : ¬(false = true))]
            rcases ho : chainRun (i + 1) rest (f s0) tr0 with ⟨s2, tr2, e⟩
            rw [ho] at htr
            cases e with
            | none =>
              simp only
              have h1 := (progRun_true_eq (fun s2 tr2 => chainRun (i + 1) rest s2 tr2)
                (fun s2 tr2 => chainRun (i + 1) rest s2 tr2) kq s2 tr2).2
              rw [h1]
              exact htr
            | some pe => simpa using htr
          · rw [progRun, progRun]
            rw [if_neg (by simp : ¬(false = true)), if_neg (by simp : ¬(false = true))]
            rw [htake]
            rcases ho2 : chainRun (i + 1) rest (f s0) tr0 with ⟨s2, tr2, e⟩
            cases e with
            | none =>
              simp only
              exact (progRun_true_eq (fun s2 tr2 => chainRun (i + 1) (rest.take k) s2 tr2)
                (fun s2 tr2 => chainRun (i + 1) rest s2 tr2) kq s2 tr2).1
            | some pe => rfl
    obtain ⟨k, hk, htr, htake⟩ := key p false s (tr ++ [i])
    refine ⟨k + 1, by simpa using hk, ?_, ?_⟩
    · rw [chainRun, htr, List.range'_succ]
      simp
    · rw [List.take_succ_cons, chainRun, chainRun]
      exact htake

/-- A middleware that never invokes `next` neither consults the rest of the
chain nor trips the guard, whatever the flag. -/
theorem progRun_count_zero {S E : Type} (nextFn : S → List Nat → Outcome S E) :
    ∀ (p : MwProg S E), nextCount p = 0 → ∀ (b : Bool) (s : S) (tr : List Nat),
      (progRun nextFn p b s tr).err ≠ some ProcErr.nextTwice := by
  intro p
  induction p with
  | halt f => intro _ b s tr; simp [progRun]
  | raise e => intro _ b s tr; simp [progRun]
  | branch c p q ihp ihq =>
    intro hcount b s tr
    have hp : nextCount p = 0 := by simp [nextCount] at hcount; omega
    have hq : nextCount q = 0 := by simp [nextCount] at hcount; omega
    by_cases hc : c s
    · simpa [progRun, hc] using ihp hp b s tr
    · simpa [progRun, hc] using ihq hq b s tr
  | callNext f k ih => intro hcount; simp [nextCount] at hcount

/-- One middleware that invokes `next` at most once cannot trip the guard,
provided the rest of the chain cannot either. -/
theorem progRun_amo_no_guard {S E : Type} (nextFn : S → List Nat → Outcome S E)
    (hn : ∀ (s : S) (tr : List Nat), (nextFn s tr).err ≠ some ProcErr.nextTwice) :
    ∀ (p : MwProg S E), nextCount p ≤ 1 → ∀ (s : S) (tr : List Nat),
      (progRun nextFn p false s tr).err ≠ some ProcErr.nextTwice := by
  intro p
  induction p with
  | halt f => intro _ s tr; simp [progRun]
  | raise e => intro _ s tr; simp [progRun]
  | branch c p q ihp ihq =>
    intro hcount s tr
    have hp : nextCount p ≤ 1 := by simp [nextCount] at hcount; omega
    have hq : nextCount q ≤ 1 := by simp [nextCount] at hcount; omega
    by_cases hc : c s
    · simpa [progRun, hc] using ihp hp s tr
    · simpa [progRun, hc] using ihq hq s tr
  | callNext f k ih =>
    intro hcount s tr
    have hk : nextCount k = 0 := by simp [nextCount] at hcount; omega
    rw [progRun]
    rw [if_neg (by simp : ¬(false = true))]
    rcases ho : nextFn (f s) tr with ⟨s2, tr2, e⟩
    cases e with
    | none =>
      simp only
      exact progRun_count_zero nextFn k hk true s2 tr2
    | some pe =>
      simp only
      intro hcontra
      apply hn (f s) tr
      rw [ho]
      simpa using hcontra

/-- A chain of middlewares that invoke `next` at most once never produces
the guard error: the error branch at resource.ts line 218 is unreachable. -/
theorem chainRun_amo_no_guard {S E : Type} :
    ∀ (l : List (MwProg S E)), (∀ p ∈ l, nextCount p ≤ 1) →
      ∀ (i : Nat) (s : S) (tr : List Nat),
        (chainRun i l s tr).err ≠ some ProcErr.nextTwice := by
  intro l
  induction l with
  | nil => intro _ i s tr; simp [chainRun]
  | cons p rest ih =>
    intro hl i s tr
    rw [chainRun]
    exact progRun_amo_no_guard (fun s2 tr2 => chainRun (i + 1) rest s2 tr2)
      (fun s2 tr2 => ih (fun q hq => hl q (by simp [hq])) (i + 1) s2 tr2)
      p (hl p (by simp)) s (tr ++ [i])

/-- In a chain of non-raising middlewares the only error that can escape is
the guard error. -/
theorem chainRun_noRaise_err {S E : Type} :
    ∀ (l : List (MwProg S E)), (∀ p ∈ l, noRaise p = true) →
      ∀ (i : Nat) (s : S) (tr : List Nat),
        (chainRun i l s tr).err = none ∨ (chainRun i l s tr).err = some ProcErr.nextTwice := by
  intro l
  induction l with
  | nil => intro _ i s tr; simp [chainRun]
  | cons p rest ih =>
    intro hl i s tr
    rw [chainRun]
    have key : ∀ (q : MwProg S E), noRaise q = true → ∀ (b : Bool) (s0 : S) (tr0 : List Nat),
        (progRun (fun s2 tr2 => chainRun (i + 1) rest s2 tr2) q b s0 tr0).err = none ∨
        (progRun (fun s2 tr2 => chainRun (i + 1) rest s2 tr2) q b s0 tr0).err =
          some ProcErr.nextTwice := by
      intro q
      induction q with
      | halt f => intro _ b s0 tr0; simp [progRun]
      | raise e => intro hq b s0 tr0; simp [noRaise] at hq
      | branch c q1 q2 ihq1 ihq2 =>
        intro hq b s0 tr0
        have h1 : noRaise q1 = true := by simp [noRaise] at hq; exact hq.1
        have h2 : noRaise q2 = true := by simp [noRaise] at hq; exact hq.2
        by_cases hc : c s0
        · simpa [progRun, hc] using ihq1 h1 b s0 tr0
        · simpa [progRun, hc] using ihq2 h2 b s0 tr0
      | callNext f kq ihk =>
        intro hq b s0 tr0
        have hkq : noRaise kq = true := by simpa [noRaise] using hq
        cases b with
        | true =>
          rw [progRun]
          simp
        | false =>
          rw [progRun]
          rw [if_neg (by simp : ¬(false = true))]
          rcases ho : chainRun (i + 1) rest (f s0) tr0 with ⟨s2, tr2, e⟩
          cases e with
          | none => simpa only using ihk hkq true s2 tr2
          | some pe =>
            simp only
            have := ih (fun q2 hq2 => hl q2 (by simp [hq2])) (i + 1) (f s0) tr0
            rw [ho] at this
            simpa using this
    exact key p (hl p (by simp)) false s (tr ++ [i])

/-- With an offending middleware in reach — every earlier middleware
invokes `next` exactly once, nothing branches or raises, and the offender
invokes `next` at least twice — the chain run rejects with the guard
error. -/
theorem chainRun_offender_guard {S E : Type} :
    ∀ (pre : List (MwProg S E)) (bad : MwProg S E) (post : List (MwProg S E)),
      (∀ p ∈ pre ++ bad :: post, branchFree p = true ∧ noRaise p = true) →
      (∀ p ∈ pre, nextCount p = 1) → 2 ≤ nextCount bad →
      ∀ (i : Nat) (s : S) (tr : List Nat),
        (chainRun i (pre ++ bad :: post) s tr).err = some ProcErr.nextTwice := by
  intro pre
  induction pre with
  | nil =>
    intro bad post hbn hpre hbad i s tr
    -- the offender is the head: it is a callNext whose continuation
    -- invokes next again
    obtain ⟨hbf, hnr⟩ := hbn bad (by simp)
    cases bad with
    | halt f => simp [nextCount] at hbad
    | raise e => simp [noRaise] at hnr
    | branch c p q => simp [branchFree] at hbf
    | callNext f k =>
      have hkbf : branchFree k = true := by simpa [branchFree] using hbf
      have hknr : noRaise k = true := by simpa [noRaise] using hnr
      have hkc : 1 ≤ nextCount k := by simp [nextCount] at hbad; omega
      rw [List.nil_append, chainRun, progRun]
      rw [if_neg (by simp : ¬(false = true))]
      rcases ho : chainRun (i + 1) post (f s) (tr ++ [i]) with ⟨s2, tr2, e⟩
      cases e with
      | none =>
        simp only
        cases k with
        | halt g => simp [nextCount] at hkc
        | raise e2 => simp [noRaise] at hknr
        | branch c2 p2 q2 => simp [branchFree] at hkbf
        | callNext g k2 => rw [progRun]; simp
      | some pe =>
        simp only
        have := chainRun_noRaise_err post
          (fun q hq => (hbn q (by simp [hq])).2) (i + 1) (f s) (tr ++ [i])
        rw [ho] at this
        simpa using this
  | cons p pre' ih =>
    intro bad post hbn hpre hbad i s tr
    obtain ⟨hbf, hnr⟩ := hbn p (by simp)
    have hpc : nextCount p = 1 := hpre p (by simp)
    cases p with
    | halt f => simp [nextCount] at hpc
    | raise e => simp [noRaise] at hnr
    | branch c q1 q2 => simp [branchFree] at hbf
    | callNext f k =>
      have hkc : nextCount k = 0 := by simp [nextCount] at hpc; omega
      rw [List.cons_append, chainRun, progRun]
      rw [if_neg (by simp : ¬(false = true))]
      have hrest := ih bad post (fun q hq => hbn q (by simp [hq]))
        (fun q hq => hpre q (by simp [hq])) hbad (i + 1) (f s) (tr ++ [i])
      rcases ho : chainRun (i + 1) (pre' ++ bad :: post) (f s) (tr ++ [i]) with ⟨s2, tr2, e⟩
      rw [ho] at hrest
      simp only at hrest
      cases e with
      | none => simp at hrest
      | some pe =>
        simp only
        exact hrest

/-- Once the reduce-based fold has seen a middleware that did not set the
continue flag, no later middleware is invoked. -/
theorem reduceGo_false_trace {S E : Type} :
    ∀ (l : List (MwProg S E)) (i : Nat) (s : S) (tr : List Nat),
      reduceGo i l s tr false = ⟨s, tr, none⟩ := by
  intro l
  induction l with
  | nil => intro i s tr; rfl
  | cons p rest ih =>
    intro i s tr
    rw [reduceGo]
    rw [if_neg (by simp : ¬(false = true))]
    exact ih (i + 1) s tr

/-- One middleware with no code after `next()` behaves identically under
the compose-based interpretation (whose `next` runs the rest of the chain)
and under the reduce-based one (whose `next` only sets the continue flag):
with nothing after `next`, when the rest of the chain runs makes no
difference. -/
theorem progRun_eq_reduce_step {S E : Type} (rest : List (MwProg S E)) (i : Nat)
    (hrec : ∀ (s : S) (tr : List Nat),
      chainRun (i + 1) rest s tr = reduceGo (i + 1) rest s tr true) :
    ∀ (p : MwProg S E), postFree p → ∀ (s : S) (tr : List Nat),
      progRun (fun s2 tr2 => chainRun (i + 1) rest s2 tr2) p false s (tr ++ [i]) =
        (match reduceExec p false s with
         | (s2, cont, none) => reduceGo (i + 1) rest s2 (tr ++ [i]) cont
         | (s2, _, some e) => ⟨s2, tr ++ [i], some (.thrown e)⟩) := by
  intro p
  induction p with
  | halt f =>
    intro _ s tr
    rw [progRun]
    rw [show reduceExec (MwProg.halt f) false s = (f s, false, none) from rfl]
    simp only
    rw [reduceGo_false_trace]
  | raise e =>
    intro _ s tr
    rw [progRun]
    rw [show reduceExec (MwProg.raise e) false s = (s, false, some e) from rfl]
  | branch c p q ihp ihq =>
    intro hpf s tr
    simp only [postFree] at hpf
    by_cases hc : c s
    · rw [progRun, if_pos hc]
      rw [show reduceExec (MwProg.branch c p q) false s =
        (if c s then reduceExec p false s else reduceExec q false s) from rfl, if_pos hc]
      exact ihp hpf.1 s tr
    · rw [progRun, if_neg hc]
      rw [show reduceExec (MwProg.branch c p q) false s =
        (if c s then reduceExec p false s else reduceExec q false s) from rfl, if_neg hc]
      exact ihq hpf.2 s tr
  | callNext f k ihk =>
    intro hpf s tr
    simp only [postFree] at hpf
    subst hpf
    rw [progRun]
    rw [if_neg (by simp : ¬(false = true))]
    rw [show reduceExec (MwProg.callNext f (.halt id)) false s = (f s, true, none) from rfl]
    simp only
    rw [← hrec (f s) (tr ++ [i])]
    rcases ho : chainRun (i + 1) rest (f s) (tr ++ [i]) with ⟨s2, tr2, e⟩
    cases e with
    | none => simp [progRun]
    | some pe => rfl

/-- For chains of middlewares with no code after `next()`, the compose-based
and the reduce-based processors produce identical outcomes: same final
context, same invoked middlewares in the same order, same escaping error. -/
theorem chainRun_eq_reduceGo {S E : Type} :
    ∀ (l : List (MwProg S E)), (∀ p ∈ l, postFree p) →
      ∀ (i : Nat) (s : S) (tr : List Nat),
        chainRun i l s tr = reduceGo i l s tr true := by
  intro l
  induction l with
  | nil => intro _ i s tr; rfl
  | cons p rest ih =>
    intro hl i s tr
    rw [chainRun, reduceGo, if_pos rfl]
    exact progRun_eq_reduce_step rest i
      (fun s2 tr2 => ih (fun q hq => hl q (by simp [hq])) (i + 1) s2 tr2)
      p (hl p (by simp)) s tr

/-- The auth step has no code after `next()`, whatever the resource
options: it either forwards to `next` directly or throws before it. -/
theorem handleAuthProg_postFree (opts : ResourceOptions) : postFree (handleAuthProg opts) := by
  rw [handleAuthProg]
  rcases opts.auth with _ | a
  · exact rfl
  · show postFree (if a.hasAcl = true then
      MwProg.branch (fun _ => a.allowed) (.callNext id (.halt id))
        (.raise (.authorisation "")) else passStep)
    by_cases hacl : a.hasAcl = true
    · rw [if_pos hacl]
      exact ⟨rfl, trivial⟩
    · rw [if_neg hacl]
      exact rfl

/-- Every default step installed by `stepOf` — for every resource option
set and every step name — has no code after `next()`: each default step of
resource.ts either ends in `return next()` or returns/throws without
invoking `next`. -/
theorem stepOf_postFree (opts : ResourceOptions) (stepName : String) :
    postFree (stepOf opts stepName) := by
  rw [stepOf.eq_def]
  split
  case _ => exact rfl
  case _ => exact rfl
  case _ => exact rfl
  case _ => exact rfl
  case _ => exact rfl
  case _ => exact handleAuthProg_postFree opts
  case _ => exact handleAuthProg_postFree opts
  case _ => exact handleAuthProg_postFree opts
  case _ => exact handleAuthProg_postFree opts
  case _ => exact handleAuthProg_postFree opts
  case _ => exact rfl
  case _ => exact rfl
  case _ => exact rfl
  case _ => exact rfl
  case _ => exact rfl
  case _ => exact rfl
  case _ => exact ⟨trivial, rfl⟩
  case _ => exact ⟨trivial, rfl⟩
  case _ => exact ⟨trivial, rfl⟩
  case _ => exact ⟨trivial, rfl⟩
  case _ => exact ⟨trivial, rfl⟩
  case _ => exact trivial
  case _ => exact rfl

/-- A query filtered by a primary key that no row carries finds nothing. -/
theorem dbFindOne_eq_none {db : Db} {pid : Nat} (h : ∀ r ∈ db, r.id ≠ pid) :
    dbFindOne { pkFilter := some (some pid), includeAll := false } db = none := by
  have hfil : db.filter (rowMatches { pkFilter := some (some pid), includeAll := false }) = [] := by
    rw [List.filter_eq_nil_iff]
    intro r hr
    simp [rowMatches]
    exact h r hr
  rw [dbFindOne, hfil]
  rfl

/-- Dispatching an action is: run its chain structurally, then apply the
application error boundary to the outcome. -/
theorem runAction_eq (opts : ResourceOptions) (chain : List String) (c : Ctx) :
    runAction opts chain c =
      (match (chainRun 0 (chain.map (stepOf opts)) c []).err with
       | none => (chainRun 0 (chain.map (stepOf opts)) c []).ctx
       | some pe => respondError (ApplicationError.coerce (procErrToAppErr pe))
           (chainRun 0 (chain.map (stepOf opts)) c []).ctx) := by
  rw [runAction, runBoundary, process_eq_chainRun]

namespace HookSpec

/-- Membership in an ordered insert. -/
theorem mem_insertHook {y h : Hook} : ∀ {l : List Hook}, y ∈ insertHook h l ↔ y = h ∨ y ∈ l := by
  intro l
  induction l with
  | nil => simp [insertHook]
  | cons x xs ih =>
    rw [insertHook]
    by_cases hc : x.priority ≤ h.priority
    · rw [if_pos hc]
      simp [ih]
      tauto
    · rw [if_neg hc]
      simp

/-- Ordered insert preserves the ascending-priority invariant. -/
theorem insertHook_sorted {h : Hook} :
    ∀ {l : List Hook}, SortedByPriority l → SortedByPriority (insertHook h l) := by
  intro l
  induction l with
  | nil => intro _; simp [insertHook, SortedByPriority]
  | cons x xs ih =>
    intro hs
    unfold SortedByPriority at hs
    rw [List.pairwise_cons] at hs
    obtain ⟨hx, hxs⟩ := hs
    rw [insertHook]
    by_cases hc : x.priority ≤ h.priority
    · rw [if_pos hc]
      unfold SortedByPriority
      rw [List.pairwise_cons]
      refine ⟨?_, ih hxs⟩
      intro y hy
      rcases mem_insertHook.mp hy with hyh | hyl
      · rw [hyh]; exact hc
      · exact hx y hyl
    · rw [if_neg hc]
      unfold SortedByPriority
      rw [List.pairwise_cons]
      refine ⟨?_, ?_⟩
      · intro y hy
        rcases List.mem_cons.mp hy with hyx | hyl
        · rw [hyx]; omega
        · have := hx y hyl
          omega
      · rw [List.pairwise_cons]
        exact ⟨hx, hxs⟩

/-- In an ascending-priority chain, every occurrence of a strictly lower
priority hook sits at a strictly earlier position. -/
theorem sorted_position_lt {l : List Hook} (hs : SortedByPriority l) {h1 h2 : Hook}
    (hp : h1.priority < h2.priority) :
    ∀ (i j : Fin l.length), l.get i = h1 → l.get j = h2 → i.val < j.val := by
  intro i j hi hj
  by_contra hcon
  rcases Nat.lt_or_ge j.val i.val with hlt | hge
  · have := (List.pairwise_iff_get.mp hs) j i (by exact hlt)
    rw [hi, hj] at this
    omega
  · have : i = j := by
      apply Fin.ext
      omega
    rw [this, hj] at hi
    rw [hi] at hp
    omega

end HookSpec

/-!
The claims.
-/

/-- C1: for every pipeline run of a resource action, the steps invoked are
the consecutive positions `0, 1, ..., k-1` — so once a step short-circuits
(completes without invoking `next`, the STOP of this variant) or throws, no
later step of the action executes — the run of the invoked prefix alone is
the entire run, and the final observable response from the action boundary
is exactly the context produced by that prefix, or, when a failure was
thrown, the responder-sent coercion of that failure. -/
theorem c1_stop_short_circuits (mws : List (MwProg Ctx AppErr)) (c : Ctx) :
    (process mws c).trace = List.range (process mws c).trace.length ∧
    process (mws.take (process mws c).trace.length) c = process mws c ∧
    runBoundary (mws.take (process mws c).trace.length) c = runBoundary mws c ∧
    runBoundary mws c =
      (match (process mws c).err with
       | none => (process mws c).ctx
       | some pe => respondError (ApplicationError.coerce (procErrToAppErr pe))
           (process mws c).ctx) := by
  obtain ⟨k, hk, htr, htake⟩ := chainRun_spec mws 0 c []
  have hp := process_eq_chainRun mws c
  have hlen : (process mws c).trace.length = k := by
    rw [hp, htr]
    simp [List.length_range']
  have htake2 : process (mws.take (process mws c).trace.length) c = process mws c := by
    rw [hlen, process_eq_chainRun, process_eq_chainRun]
    exact htake
  refine ⟨?_, htake2, ?_, ?_⟩
  · rw [hlen, hp, htr]
    simp [List.range_eq_range']
  · simp only [runBoundary]
    rw [htake2]
  · rfl

/-- C9: the compose-based chain processor rejects with the guard error
`next() called multiple times in resource middleware` whenever a middleware
invokes its `next` callback a second time (stated for a chain of
deterministic non-throwing middlewares whose first non-conforming member
invokes `next` at least twice); and under the precondition that every
middleware invokes `next` at most once, that error branch is unreachable. -/
theorem c9_next_multiple_guard (mws : List (MwProg Ctx AppErr)) (c : Ctx) :
    ((∀ p ∈ mws, nextCount p ≤ 1) → (process mws c).err ≠ some ProcErr.nextTwice) ∧
    (∀ (pre : List (MwProg Ctx AppErr)) (bad : MwProg Ctx AppErr)
       (post : List (MwProg Ctx AppErr)),
      mws = pre ++ bad :: post →
      (∀ p ∈ mws, branchFree p = true ∧ noRaise p = true) →
      (∀ p ∈ pre, nextCount p = 1) → 2 ≤ nextCount bad →
      (process mws c).err = some ProcErr.nextTwice ∧
      (procErrToAppErr ProcErr.nextTwice).msg = nextTwiceMessage) := by
  constructor
  · intro hamo
    rw [process_eq_chainRun]
    exact chainRun_amo_no_guard mws hamo 0 c []
  · intro pre bad post hsplit hbn hpre hbad
    refine ⟨?_, rfl⟩
    rw [process_eq_chainRun, hsplit]
    rw [hsplit] at hbn
    exact chainRun_offender_guard pre bad post hbn hpre hbad 0 c []

/-- C9 witness: the single middleware of `twiceChain` invokes `next` twice,
and processing it rejects with the guard error. -/
theorem c9_next_multiple_guard_witness :
    (twiceChain = [] ++ MwProg.callNext id (.callNext id (.halt id)) :: []) ∧
    (∀ p ∈ twiceChain, branchFree p = true ∧ noRaise p = true) ∧
    (∀ p ∈ ([] : List (MwProg Ctx AppErr)), nextCount p = 1) ∧
    2 ≤ nextCount (MwProg.callNext (id : Ctx → Ctx)
      (.callNext id (.halt (id : Ctx → Ctx)) : MwProg Ctx AppErr)) ∧
    (process twiceChain (mkCtx none noBody [])).err = some ProcErr.nextTwice :=
  ⟨rfl, by decide, by decide, by decide,
    ((c9_next_multiple_guard twiceChain (mkCtx none noBody [])).2
      [] (MwProg.callNext id (.callNext id (.halt id))) [] rfl
      (by decide) (by decide) (by decide)).1⟩

/-- C10 counterexample: a chain of three middlewares, each invoking `next`
at most once, on which the two processors do not invoke the same
middlewares: the compose-based processor invokes all three, the reduce-based
processor only the first two, because the reduce-based one runs the code a
middleware places after `await next()` before the rest of the chain instead
of after it. -/
theorem c10_scheduling_cex :
    (∀ p ∈ mixedChain, nextCount p ≤ 1) ∧
    (process mixedChain (mkCtx none noBody [])).trace = [0, 1, 2] ∧
    (reduceProcess mixedChain (mkCtx none noBody [])).trace = [0, 1] ∧
    (process mixedChain (mkCtx none noBody [])).trace ≠
      (reduceProcess mixedChain (mkCtx none noBody [])).trace := by
  refine ⟨by decide, ?_, by decide, ?_⟩
  · rw [process_eq_chainRun]
    decide
  · rw [process_eq_chainRun]
    decide

/-- C10 (amended): the superseded reduce-based chain processor and the
current compose-based one are equivalent for every finite chain of
middlewares with no code after `await next()` (each middleware either
completes or throws before invoking `next`, or ends in `return next()`):
the two processors produce identical outcomes — in particular they invoke
the same middlewares in the same order and halt the chain at the first
middleware that completes without invoking `next`. Every default step the
resource installs, for every resource option set and step name, is of this
shape, so the equivalence covers the five default action chains. -/
theorem c10_schedule_equiv_no_post (mws : List (MwProg Ctx AppErr)) (c : Ctx)
    (h : ∀ p ∈ mws, postFree p) :
    process mws c = reduceProcess mws c ∧
    (process mws c).trace = (reduceProcess mws c).trace ∧
    (∀ (opts : ResourceOptions) (stepName : String), postFree (stepOf opts stepName)) := by
  have heq : process mws c = reduceProcess mws c := by
    rw [process_eq_chainRun, reduceProcess]
    exact chainRun_eq_reduceGo mws h 0 c []
  exact ⟨heq, by rw [heq], fun opts stepName => stepOf_postFree opts stepName⟩

/-- C10 witness: a concrete chain of middlewares with no code after
`next()` on which both processors produce the same outcome. -/
theorem c10_schedule_equiv_no_post_witness :
    (∀ p ∈ simpleChain, postFree p) ∧
    process simpleChain (mkCtx none noBody []) =
      reduceProcess simpleChain (mkCtx none noBody []) :=
  ⟨by
    intro p hp
    fin_cases hp <;> first | exact rfl | exact trivial,
   (c10_schedule_equiv_no_post simpleChain (mkCtx none noBody [])
     (by
       intro p hp
       fin_cases hp <;> first | exact rfl | exact trivial)).1⟩

/-- C2: contrary to the claim that every enabled action runs its request
through the authenticate milestone, the LIST, READ, CREATE and UPDATE
chains contain none of their auth steps (the methods exist in resource.ts
but are absent from the arrays passed to `process`); only the DELETE chain
runs before-auth, auth and after-auth, between its start and fetch
milestones. -/
theorem c2_auth_only_in_delete_chain :
    "handleListAuth" ∉ listChain ∧ "beforeListAuth" ∉ listChain ∧
    "afterListAuth" ∉ listChain ∧
    "handleReadAuth" ∉ readChain ∧ "handleCreateAuth" ∉ createChain ∧
    "handleUpdateAuth" ∉ updateChain ∧
    "handleDeleteAuth" ∈ deleteChain ∧ "beforeDeleteAuth" ∈ deleteChain ∧
    "afterDeleteAuth" ∈ deleteChain ∧
    List.indexOf "handleDeleteStart" deleteChain < List.indexOf "handleDeleteAuth" deleteChain ∧
    List.indexOf "handleDeleteAuth" deleteChain < List.indexOf "handleDeleteFetch" deleteChain := by
  decide

/-- C8: contrary to the claim (and to the doc comment above
`ApplicationError.coerce`, app.ts line 61, which lists a default 403
handler for authorization failures), no coercion handler is registered for
`AuthorisationError`, so an authorization failure falls through to the
default branch and is coerced to a 500, not a 403. -/
theorem c8_authorisation_coerces_to_500 :
    ApplicationError.coerce (AppErr.authorisation "Not allowed") =
      { status := 500, message := "Not allowed", data := none } ∧
    (ApplicationError.coerce (AppErr.authorisation "Not allowed")).status ≠ 403 ∧
    registeredHandler (AppErr.authorisation "Not allowed") = none := by
  refine ⟨rfl, by decide, rfl⟩

/-- C4: in the spec-modelled hook registry, inserting two hooks with
priorities `p1 < p2` into the same sorted chain places every occurrence of
the `p1` hook strictly before every occurrence of the `p2` hook, whichever
of the two was inserted first; and the executed on-chain appends the
built-in default step (priority 0) at the last position, so every
registered on-hook — in particular a user hook at the default priority 1 —
runs strictly before the default step of its chain. -/
theorem c4_priority_ordering (reg : HookSpec.Registry)
    (key : HookSpec.Action × HookSpec.Milestone × HookSpec.ChainKind)
    (h1 h2 : HookSpec.Hook)
    (hs : HookSpec.SortedByPriority (reg key)) (hp : h1.priority < h2.priority) :
    (h1 ∈ HookSpec.withHook (HookSpec.withHook reg key h1) key h2 key ∧
     h2 ∈ HookSpec.withHook (HookSpec.withHook reg key h1) key h2 key ∧
     ∀ (i j : Fin (HookSpec.withHook (HookSpec.withHook reg key h1) key h2 key).length),
       (HookSpec.withHook (HookSpec.withHook reg key h1) key h2 key).get i = h1 →
       (HookSpec.withHook (HookSpec.withHook reg key h1) key h2 key).get j = h2 →
       i.val < j.val) ∧
    (h1 ∈ HookSpec.withHook (HookSpec.withHook reg key h2) key h1 key ∧
     h2 ∈ HookSpec.withHook (HookSpec.withHook reg key h2) key h1 key ∧
     ∀ (i j : Fin (HookSpec.withHook (HookSpec.withHook reg key h2) key h1 key).length),
       (HookSpec.withHook (HookSpec.withHook reg key h2) key h1 key).get i = h1 →
       (HookSpec.withHook (HookSpec.withHook reg key h2) key h1 key).get j = h2 →
       i.val < j.val) ∧
    (∀ (onHooks : List HookSpec.Hook) (d : HookSpec.Hook),
       (HookSpec.onChainExec onHooks d).getLast? = some d ∧
       (HookSpec.onChainExec onHooks d).take onHooks.length = onHooks) := by
  have hw12 : HookSpec.withHook (HookSpec.withHook reg key h1) key h2 key =
      HookSpec.insertHook h2 (HookSpec.insertHook h1 (reg key)) := by
    simp [HookSpec.withHook]
  have hw21 : HookSpec.withHook (HookSpec.withHook reg key h2) key h1 key =
      HookSpec.insertHook h1 (HookSpec.insertHook h2 (reg key)) := by
    simp [HookSpec.withHook]
  have hs12 : HookSpec.SortedByPriority (HookSpec.insertHook h2 (HookSpec.insertHook h1 (reg key))) :=
    HookSpec.insertHook_sorted (HookSpec.insertHook_sorted hs)
  have hs21 : HookSpec.SortedByPriority (HookSpec.insertHook h1 (HookSpec.insertHook h2 (reg key))) :=
    HookSpec.insertHook_sorted (HookSpec.insertHook_sorted hs)
  refine ⟨?_, ?_, ?_⟩
  · rw [hw12]
    refine ⟨HookSpec.mem_insertHook.mpr (Or.inr (HookSpec.mem_insertHook.mpr (Or.inl rfl))),
      HookSpec.mem_insertHook.mpr (Or.inl rfl), ?_⟩
    exact HookSpec.sorted_position_lt hs12 hp
  · rw [hw21]
    refine ⟨HookSpec.mem_insertHook.mpr (Or.inl rfl),
      HookSpec.mem_insertHook.mpr (Or.inr (HookSpec.mem_insertHook.mpr (Or.inl rfl))), ?_⟩
    exact HookSpec.sorted_position_lt hs21 hp
  · intro onHooks d
    constructor
    · simp [HookSpec.onChainExec]
    · rw [HookSpec.onChainExec]
      exact List.take_left onHooks [d]

/-- C4 witness: with the fresh (empty, hence sorted) registry and two
concrete hooks at the default-step priority 0 and the default user
priority 1, the priority-0 hook is a member of the doubly extended chain. -/
theorem c4_priority_ordering_witness :
    HookSpec.SortedByPriority (HookSpec.emptyReg HookSpec.sampleKey) ∧
    ((⟨0, 10⟩ : HookSpec.Hook).priority < (⟨1, 11⟩ : HookSpec.Hook).priority) ∧
    (⟨0, 10⟩ : HookSpec.Hook) ∈ HookSpec.withHook
      (HookSpec.withHook HookSpec.emptyReg HookSpec.sampleKey ⟨0, 10⟩)
      HookSpec.sampleKey ⟨1, 11⟩ HookSpec.sampleKey :=
  ⟨by simp [HookSpec.SortedByPriority, HookSpec.emptyReg], by decide,
    ((c4_priority_ordering HookSpec.emptyReg HookSpec.sampleKey ⟨0, 10⟩ ⟨1, 11⟩
      (by simp [HookSpec.SortedByPriority, HookSpec.emptyReg]) (by decide)).1).1⟩

/-- C3 counterexample: a READ of primary key 42 against an empty table does
return status 404, but its serialised body is NOT of the claimed shape
`"message"` plus `"errors"` array — the responder writes `message` and
`data` (unnamed part_009 lines 49-55), and with no data the body carries no
`errors` key at all. -/
theorem c3_error_shape_cex :
    encodeBody (runAction plainOpts readChain (mkCtx (some 42) noBody [])).body ≠
      Json.obj [("message", Json.str "Not Found"), ("errors", Json.arr [])] ∧
    (encodeBody (runAction plainOpts readChain (mkCtx (some 42) noBody [])).body).hasKey
      "errors" = false := by
  have hbody : (runAction plainOpts readChain (mkCtx (some 42) noBody [])).body =
      Body.errObj "Not Found" none := by
    rw [runAction_eq]
    decide
  constructor
  · rw [hbody]
    intro hcontra
    exact absurd (congrArg (fun j => Json.hasKey j "errors") hcontra) (by decide)
  · rw [hbody]
    decide

/-- C3 (amended): an error that reaches the response is sent with the
error's status and a body holding the error's `message` and its contextual
`data` (omitted from the wire when absent); a READ of primary key 42 with
no matching record yields status 404 with body
`"message": "Not Found"` and no `errors` (or `data`) key. -/
theorem c3_error_shape_amended :
    (∀ (ae : ApplicationError) (c : Ctx),
      (respondError ae c).status = ae.status ∧
      (respondError ae c).body = Body.errObj ae.message ae.data) ∧
    (runAction plainOpts readChain (mkCtx (some 42) noBody [])).status = 404 ∧
    (runAction plainOpts readChain (mkCtx (some 42) noBody [])).body =
      Body.errObj "Not Found" none ∧
    encodeBody (runAction plainOpts readChain (mkCtx (some 42) noBody [])).body =
      Json.obj [("message", Json.str "Not Found")] := by
  have hbody : (runAction plainOpts readChain (mkCtx (some 42) noBody [])).body =
      Body.errObj "Not Found" none := by
    rw [runAction_eq]
    decide
  refine ⟨fun ae c => ⟨rfl, rfl⟩, ?_, hbody, ?_⟩
  · rw [runAction_eq]
    decide
  · rw [hbody]
    rfl

/-- C5 counterexample: for a CREATE request (POST with no route parameter),
the START default step does apply the primary-key filter to the query —
`handleCreateStart` leaves `multiple` unset, so `handleStart` takes its
`multiple: false` default and filters by `pk = params.id` with the
undefined route parameter — and that filtered query is the one the WRITE
persist step uses (nothing resets it before or after the write). -/
theorem c5_create_pk_filter_cex :
    (runAction plainOpts createChain (mkCtx none ⟨some "Ada"⟩ [])).resource.map
      (fun rd => rd.query.pkFilter) = some (some none) ∧
    (runAction plainOpts createChain (mkCtx none ⟨some "Ada"⟩ [])).resource.map
      (fun rd => rd.query.pkFilter) ≠ some none := by
  rw [runAction_eq]
  exact ⟨by decide, by decide⟩

/-- The CREATE chain of a plain resource, with each name resolved to its
default step. -/
theorem createChain_map_stepOf : createChain.map (stepOf plainOpts) =
    [passStep,
     .callNext (fun c => handleStartEffect plainOpts (setResInit plainOpts "create" none c))
       (.halt id),
     passStep,
     passStep, .callNext createWriteEffect (.halt id), passStep,
     passStep, handleSendProg, passStep,
     passStep, passStep, passStep] := rfl

/-- C5 (amended): for every CREATE request — any request payload, any table
state — the START milestone's default step builds the query with the
primary-key filter `pk = params.id` applied (the route parameter being
undefined for a CREATE route), because `handleCreateStart` does not mark
the action as plural; the WRITE persist step uses that filtered query, and
persistence ignores the filter on creation, so the instance is still
created and emitted with status 200, and the table gains the created
row. -/
theorem c5_create_pk_filter_amended (reqBody : Payload) (db : Db) :
    (runAction plainOpts createChain (mkCtx none reqBody db)).resource.map
      (fun rd => rd.query.pkFilter) = some (some none) ∧
    (runAction plainOpts createChain (mkCtx none reqBody db)).status = 200 ∧
    (runAction plainOpts createChain (mkCtx none reqBody db)).body =
      Body.single (dbCreate reqBody db).1 ∧
    (runAction plainOpts createChain (mkCtx none reqBody db)).db =
      (dbCreate reqBody db).2 := by
  refine ⟨?_, ?_, ?_, ?_⟩ <;>
  · rw [runAction_eq, createChain_map_stepOf]
    simp [chainRun, progRun, passStep, handleSendProg, sendEffect, handleStartEffect,
      setResInit, mkCtx, baseQuery, plainOpts, onResource, createWriteEffect, instMissing]

/-- The DELETE chain of a plain resource, with each name resolved to its
default step (the auth steps reduce to pure pass-through when no auth
collaborator is configured). -/
theorem deleteChain_map_stepOf : deleteChain.map (stepOf plainOpts) =
    [passStep,
     .callNext (fun c => handleStartEffect plainOpts (setResInit plainOpts "delete" none c))
       (.halt id),
     passStep, passStep, passStep, passStep,
     passStep, .callNext oneFetchEffect (.halt id), passStep,
     passStep, handleDeleteWriteProg, passStep,
     passStep, handleDeleteSendProg, passStep,
     passStep, passStep, passStep] := rfl

/-- C6: a DELETE request whose primary key matches no existing record
responds with the 404 Not Found error and never invokes the persistence
collaborator's destroy operation; and the destroy branch of the WRITE step
runs only when an instance was fetched (the guard raises the 404 before any
destroy), after which the destroy effect counts one destroy call and
clears the instance reference from the context. -/
theorem c6_delete_not_found (pid : Nat) (db : Db) (reqBody : Payload)
    (h : ∀ r ∈ db, r.id ≠ pid) :
    (runAction plainOpts deleteChain (mkCtx (some pid) reqBody db)).status = 404 ∧
    (runAction plainOpts deleteChain (mkCtx (some pid) reqBody db)).body =
      Body.errObj "Not Found" none ∧
    (runAction plainOpts deleteChain (mkCtx (some pid) reqBody db)).destroyCalls = 0 ∧
    (∀ (nextFn : Ctx → List Nat → Outcome Ctx AppErr) (c : Ctx) (tr : List Nat),
      instMissing c = true →
      progRun nextFn handleDeleteWriteProg false c tr =
        ⟨c, tr, some (.thrown (.application 404 "Not Found" none))⟩) ∧
    (∀ (c : Ctx) (rd : ResData), c.resource = some rd →
      (deleteWriteEffect c).destroyCalls = c.destroyCalls + 1 ∧
      (deleteWriteEffect c).resource = some { rd with inst := none } ∧
      (deleteWriteEffect c).db = dbDestroy rd.query c.db) := by
  have hq := dbFindOne_eq_none h
  refine ⟨?_, ?_, ?_, ?_, ?_⟩
  · rw [runAction_eq, deleteChain_map_stepOf]
    simp [chainRun, progRun, passStep, handleDeleteWriteProg, handleDeleteSendProg,
      handleStartEffect, setResInit, mkCtx, baseQuery, plainOpts, onResource, oneFetchEffect,
      instMissing, hq, procErrToAppErr, ApplicationError.coerce, respondError]
  · rw [runAction_eq, deleteChain_map_stepOf]
    simp [chainRun, progRun, passStep, handleDeleteWriteProg, handleDeleteSendProg,
      handleStartEffect, setResInit, mkCtx, baseQuery, plainOpts, onResource, oneFetchEffect,
      instMissing, hq, procErrToAppErr, ApplicationError.coerce, respondError]
  · rw [runAction_eq, deleteChain_map_stepOf]
    simp [chainRun, progRun, passStep, handleDeleteWriteProg, handleDeleteSendProg,
      handleStartEffect, setResInit, mkCtx, baseQuery, plainOpts, onResource, oneFetchEffect,
      instMissing, hq, procErrToAppErr, ApplicationError.coerce, respondError]
  · intro nextFn c tr hmiss
    simp [handleDeleteWriteProg, progRun, hmiss]
  · intro c rd hres
    simp [deleteWriteEffect, hres]

/-- C6 witness: deleting primary key 42 from a table holding only the row
with id 7 responds 404. -/
theorem c6_delete_not_found_witness :
    (∀ r ∈ ([⟨7, "widget"⟩] : Db), r.id ≠ 42) ∧
    (runAction plainOpts deleteChain (mkCtx (some 42) noBody [⟨7, "widget"⟩])).status = 404 :=
  ⟨by decide, (c6_delete_not_found 42 [⟨7, "widget"⟩] noBody (by decide)).1⟩

/-- The UPDATE chain of a plain resource, with each name resolved to its
default step. -/
theorem updateChain_map_stepOf : updateChain.map (stepOf plainOpts) =
    [passStep,
     .callNext (fun c => handleStartEffect plainOpts (setResInit plainOpts "update" none c))
       (.halt id),
     passStep,
     passStep, .callNext oneFetchEffect (.halt id), passStep,
     passStep, .callNext updateWriteEffect (.halt id), passStep,
     passStep, handleSendProg, passStep,
     passStep, passStep, passStep] := rfl

/-- C7: for every UPDATE request whose post-write re-fetch by primary key
finds a record, the SEND milestone emits exactly that re-fetched record —
the canonical state after `query.update` followed by the reload — never the
raw pre-write request payload, and the persisted table is the updated
one. -/
theorem c7_update_send_reload (pid : Nat) (db : Db) (reqBody : Payload) (r : Row)
    (h : dbFindOne { pkFilter := some (some pid), includeAll := false }
      (dbUpdate { pkFilter := some (some pid), includeAll := false } reqBody db) = some r) :
    (runAction plainOpts updateChain (mkCtx (some pid) reqBody db)).status = 200 ∧
    (runAction plainOpts updateChain (mkCtx (some pid) reqBody db)).body = Body.single r ∧
    (runAction plainOpts updateChain (mkCtx (some pid) reqBody db)).db =
      dbUpdate { pkFilter := some (some pid), includeAll := false } reqBody db := by
  refine ⟨?_, ?_, ?_⟩ <;>
  · rw [runAction_eq, updateChain_map_stepOf]
    simp [chainRun, progRun, passStep, handleSendProg, sendEffect,
      handleStartEffect, setResInit, mkCtx, baseQuery, plainOpts, onResource, oneFetchEffect,
      updateWriteEffect, instMissing, h]

/-- C7 witness: updating the name of the row with id 1 emits the reloaded
row, carrying the new name. -/
theorem c7_update_send_reload_witness :
    dbFindOne { pkFilter := some (some 1), includeAll := false }
      (dbUpdate { pkFilter := some (some 1), includeAll := false } ⟨some "new"⟩
        [⟨1, "old"⟩]) = some ⟨1, "new"⟩ ∧
    (runAction plainOpts updateChain (mkCtx (some 1) ⟨some "new"⟩ [⟨1, "old"⟩])).body =
      Body.single ⟨1, "new"⟩ :=
  ⟨by decide,
    (c7_update_send_reload 1 [⟨1, "old"⟩] ⟨some "new"⟩ ⟨1, "new"⟩ (by decide)).2.1⟩

end Crea
